import Mathlib

/-!
# Verification of the Idox scraper core (`src/scraper.ts`, streaming variant)

A shallow embedding of the Idox grant-scraper engine: the text sanitizer,
the listing-page record extractor, the pagination walker, the enrichment
pipeline and the two orchestrator entry points.  Browser interaction is
abstracted into an explicit environment (`ScrapeEnv`): every DOM read the
code performs is a field of the environment, and every theorem quantifies
over all environments.

JavaScript strings are modelled as Lean `String`/`List Char` (UTF-16 code
units are abstracted as characters; none of the verified properties depend
on surrogate-pair behaviour).
-/

namespace IdoxScraper

/-! ## JavaScript string primitives

`\s` in a JavaScript regular expression matches the characters listed in
`jsWhitespace` (ASCII whitespace plus the Unicode space separators, the
line/paragraph separators, the byte-order mark and the no-break spaces);
`String.prototype.trim` strips the same set. -/

def jsWhitespace : List Char :=
  [' ', '\t', '\n', '\r', Char.ofNat 0x0b, Char.ofNat 0x0c,
   Char.ofNat 0xa0, Char.ofNat 0x1680,
   Char.ofNat 0x2000, Char.ofNat 0x2001, Char.ofNat 0x2002, Char.ofNat 0x2003,
   Char.ofNat 0x2004, Char.ofNat 0x2005, Char.ofNat 0x2006, Char.ofNat 0x2007,
   Char.ofNat 0x2008, Char.ofNat 0x2009, Char.ofNat 0x200a,
   Char.ofNat 0x2028, Char.ofNat 0x2029, Char.ofNat 0x202f,
   Char.ofNat 0x205f, Char.ofNat 0x3000, Char.ofNat 0xfeff]

def isJsSpace (c : Char) : Bool := jsWhitespace.contains c

/-- Boolean character membership (used instead of `List.contains` so that
every unfolding step is under our control). -/
def hasChar (x : Char) : List Char → Bool
  | [] => false
  | c :: rest => (c == x) || hasChar x rest

/-- `l.dropWhile isJsSpace`, the front half of `String.prototype.trim`. -/
def ltrim (l : List Char) : List Char := l.dropWhile isJsSpace

/-- Strip trailing JS whitespace, the back half of `String.prototype.trim`. -/
def rtrim (l : List Char) : List Char := (l.reverse.dropWhile isJsSpace).reverse

/-- `String.prototype.trim` on character lists. -/
def trimList (l : List Char) : List Char := rtrim (ltrim l)

/-- `text.trim()` (with JS `?.trim() || ''` defaulting handled by callers). -/
def jsTrim (s : String) : String := (trimList s.data).asString

/-- `s.substring(0, n)`. -/
def jsSubstrTo (n : Nat) (s : String) : String := (s.data.take n).asString

/-- JS `String.prototype.startsWith` (a plain prefix test). -/
def jsStartsWith (pre s : String) : Bool := pre.data.isPrefixOf s.data

/-- JS `href.includes`-style containment used by the `a[href*="..."]`
attribute selector: does `pat` occur as a contiguous substring? -/
def containsSubF (pat : List Char) : List Char → Bool
  | [] => pat.isEmpty
  | c :: rest => pat.isPrefixOf (c :: rest) || containsSubF pat rest

def containsSub (pat s : String) : Bool := containsSubF pat.data s.data

/-! ## The sanitizer `sanitizeText`

```js
function sanitizeText(text: string): string {
  if (!text) return ''
  return text
    .replace(/<[^>]*>/g, '')
    .replace(/&nbsp;/g, ' ').replace(/&amp;/g, '&').replace(/&lt;/g, '<')
    .replace(/&gt;/g, '>').replace(/&quot;/g, '"').replace(/&#39;/g, "'")
    .replace(/&ndash;/g, '–').replace(/&mdash;/g, '—').replace(/&pound;/g, '£')
    .replace(/\s+/g, ' ')
    .trim()
}
```

Each stage is written with an explicit fuel argument (structural recursion,
so the kernel can evaluate it); fuel equal to the input length always
suffices because every step consumes at least one character per unit of
fuel. -/

/-- Scan for the first `'>'`; on success return the remainder after it.
This is how the regex `<[^>]*>` matches starting at a `'<'`: the class
`[^>]*` runs to the first `'>'`, and if there is none the match fails. -/
def splitAtGt : List Char → Option (List Char)
  | [] => none
  | c :: rest => if c == '>' then some rest else splitAtGt rest

/-- One global pass of `.replace(/<[^>]*>/g, '')`. -/
def stripTagsF : Nat → List Char → List Char
  | _, [] => []
  | 0, l => l
  | n + 1, c :: rest =>
    if c == '<' then
      match splitAtGt rest with
      | some rest2 => stripTagsF n rest2
      | none => c :: stripTagsF n rest
    else c :: stripTagsF n rest

def stripTags (l : List Char) : List Char := stripTagsF l.length l

/-- One global pass of `.replace(/lit/g, rep)` for a literal pattern
`p0 :: ps` (literal JS regex replacement is left-to-right and
non-overlapping). -/
def replaceAllF (p0 : Char) (ps rep : List Char) : Nat → List Char → List Char
  | _, [] => []
  | 0, l => l
  | n + 1, c :: rest =>
    if (p0 :: ps).isPrefixOf (c :: rest) then
      rep ++ replaceAllF p0 ps rep n (rest.drop ps.length)
    else c :: replaceAllF p0 ps rep n rest

def replaceAll (pat rep : String) (l : List Char) : List Char :=
  match pat.data with
  | [] => l
  | p0 :: ps => replaceAllF p0 ps rep.data l.length l

/-- The nine chained entity decodes, in source order. -/
def entityDecode (l : List Char) : List Char :=
  replaceAll "&pound;" "£"
    (replaceAll "&mdash;" "—"
      (replaceAll "&ndash;" "–"
        (replaceAll "&#39;" "'"
          (replaceAll "&quot;" "\""
            (replaceAll "&gt;" ">"
              (replaceAll "&lt;" "<"
                (replaceAll "&amp;" "&"
                  (replaceAll "&nbsp;" " " l))))))))

/-- One global pass of `.replace(/\s+/g, ' ')`. -/
def collapseWsF : Nat → List Char → List Char
  | _, [] => []
  | 0, l => l
  | n + 1, c :: rest =>
    if isJsSpace c then ' ' :: collapseWsF n (rest.dropWhile isJsSpace)
    else c :: collapseWsF n rest

def collapseWs (l : List Char) : List Char := collapseWsF l.length l

/-- The four-stage body of `sanitizeText` on character lists. -/
def sanitizePipe (l : List Char) : List Char :=
  trimList (collapseWs (entityDecode (stripTags l)))

/-- `sanitizeText` from the source, including the `if (!text) return ''`
falsy-guard (the empty string is the only falsy `string` value). -/
def sanitizeText (text : String) : String :=
  if text = "" then "" else (sanitizePipe text.data).asString

/-! ### Invariants of the sanitizer stages

`noTagB l`: no `'<'` in `l` is followed (anywhere later) by a `'>'`, i.e.
the regex `<[^>]*>` has no match.  `wsOnlySpace l`: every whitespace
character in `l` is a plain `' '`.  `noAdjWs l`: no two adjacent
whitespace characters.  `headNotWs l`: the head, if any, is not
whitespace. -/

def noTagB : List Char → Bool
  | [] => true
  | c :: rest => (if c == '<' then !(hasChar '>' rest) else true) && noTagB rest

def wsOnlySpace : List Char → Bool
  | [] => true
  | c :: rest => (!(isJsSpace c) || (c == ' ')) && wsOnlySpace rest

def noAdjWs : List Char → Bool
  | [] => true
  | [_] => true
  | c :: d :: rest => !(isJsSpace c && isJsSpace d) && noAdjWs (d :: rest)

def headNotWs : List Char → Bool
  | [] => true
  | c :: _ => !(isJsSpace c)

theorem hasChar_append (x : Char) (a b : List Char) :
    hasChar x (a ++ b) = (hasChar x a || hasChar x b) := by
  induction a with
  | nil => simp [hasChar]
  | cons c rest ih => simp [hasChar, ih, Bool.or_assoc]

theorem hasChar_reverse (x : Char) (l : List Char) :
    hasChar x l.reverse = hasChar x l := by
  induction l with
  | nil => rfl
  | cons c rest ih =>
    simp [hasChar, List.reverse_cons, hasChar_append, ih, Bool.or_comm]

theorem hasChar_dropWhile (x : Char) (p : Char → Bool) (l : List Char)
    (h : hasChar x l = false) : hasChar x (l.dropWhile p) = false := by
  induction l with
  | nil => simpa using h
  | cons c rest ih =>
    simp only [hasChar, Bool.or_eq_false_iff] at h
    by_cases hp : p c
    · simpa [List.dropWhile_cons, hp] using ih h.2
    · simp [List.dropWhile_cons, hp, hasChar, h.1, h.2]

theorem length_dropWhile_le (p : Char → Bool) (l : List Char) :
    (l.dropWhile p).length ≤ l.length := by
  induction l with
  | nil => simp
  | cons c rest ih =>
    by_cases hp : p c
    · simp only [List.dropWhile_cons, hp, if_true]
      exact Nat.le_succ_of_le ih
    · simp [List.dropWhile_cons, hp]

theorem dropWhile_suffix (p : Char → Bool) (l : List Char) :
    ∃ s, l = s ++ l.dropWhile p := by
  induction l with
  | nil => exact ⟨[], rfl⟩
  | cons c rest ih =>
    by_cases hp : p c
    · obtain ⟨s, hs⟩ := ih
      exact ⟨c :: s, by simp [List.dropWhile_cons, hp, ← hs]⟩
    · exact ⟨[], by simp [List.dropWhile_cons, hp]⟩

theorem headNotWs_dropWhile (l : List Char) :
    headNotWs (l.dropWhile isJsSpace) = true := by
  induction l with
  | nil => rfl
  | cons c rest ih =>
    by_cases hp : isJsSpace c
    · simpa [List.dropWhile_cons, hp] using ih
    · simp [List.dropWhile_cons, hp, headNotWs]

theorem dropWhile_eq_self_of_headNotWs (l : List Char)
    (h : headNotWs l = true) : l.dropWhile isJsSpace = l := by
  cases l with
  | nil => rfl
  | cons c rest =>
    simp only [headNotWs, Bool.not_eq_true'] at h
    simp [List.dropWhile_cons, h]

theorem dropWhile_idem (p : Char → Bool) (l : List Char) :
    (l.dropWhile p).dropWhile p = l.dropWhile p := by
  induction l with
  | nil => rfl
  | cons c rest ih =>
    by_cases hp : p c
    · simpa [List.dropWhile_cons, hp] using ih
    · simp [List.dropWhile_cons, hp]

/-! ### `stripTags` lemmas -/

theorem splitAtGt_eq_none_iff (l : List Char) :
    splitAtGt l = none ↔ hasChar '>' l = false := by
  induction l with
  | nil => simp [splitAtGt, hasChar]
  | cons c rest ih =>
    by_cases hc : c == '>'
    · simp [splitAtGt, hc, hasChar]
    · simp [splitAtGt, hc, hasChar, ih]

theorem splitAtGt_length {l l2 : List Char} (h : splitAtGt l = some l2) :
    l2.length < l.length := by
  induction l generalizing l2 with
  | nil => simp [splitAtGt] at h
  | cons c rest ih =>
    by_cases hc : c == '>'
    · simp only [splitAtGt, hc, if_true, Option.some.injEq] at h
      simp [← h, Nat.lt_succ_self]
    · simp only [splitAtGt, hc, if_false] at h
      exact Nat.lt_succ_of_lt (ih h)

theorem splitAtGt_hasChar {l l2 : List Char} (x : Char)
    (h : splitAtGt l = some l2) (hx : hasChar x l = false) :
    hasChar x l2 = false := by
  induction l generalizing l2 with
  | nil => simp [splitAtGt] at h
  | cons c rest ih =>
    simp only [hasChar, Bool.or_eq_false_iff] at hx
    by_cases hc : c == '>'
    · simp only [splitAtGt, hc, if_true, Option.some.injEq] at h
      exact h ▸ hx.2
    · simp only [splitAtGt, hc, if_false] at h
      exact ih h hx.2

theorem stripTagsF_hasChar (x : Char) :
    ∀ (n : Nat) (l : List Char), hasChar x l = false →
      hasChar x (stripTagsF n l) = false := by
  intro n
  induction n with
  | zero => intro l h; cases l <;> simpa [stripTagsF] using h
  | succ n ih =>
    intro l h
    cases l with
    | nil => simpa [stripTagsF] using h
    | cons c rest =>
      simp only [hasChar, Bool.or_eq_false_iff] at h
      by_cases hc : c == '<'
      · cases hsp : splitAtGt rest with
        | some rest2 =>
          simp only [stripTagsF, hc, if_true, hsp]
          exact ih rest2 (splitAtGt_hasChar x hsp h.2)
        | none =>
          simp [stripTagsF, hc, hsp, hasChar, h.1, ih rest h.2]
      · simp [stripTagsF, hc, hasChar, h.1, ih rest h.2]

theorem stripTagsF_eq_of_noTag :
    ∀ (n : Nat) (l : List Char), noTagB l = true → stripTagsF n l = l := by
  intro n
  induction n with
  | zero => intro l _; cases l <;> rfl
  | succ n ih =>
    intro l h
    cases l with
    | nil => rfl
    | cons c rest =>
      simp only [noTagB, Bool.and_eq_true] at h
      by_cases hc : c == '<'
      · have hgt : hasChar '>' rest = false := by
          have := h.1
          simpa [hc] using this
        have : splitAtGt rest = none := (splitAtGt_eq_none_iff rest).mpr hgt
        simp [stripTagsF, hc, this, ih rest h.2]
      · simp [stripTagsF, hc, ih rest h.2]

theorem stripTagsF_noTag :
    ∀ (n : Nat) (l : List Char), l.length ≤ n →
      noTagB (stripTagsF n l) = true := by
  intro n
  induction n with
  | zero =>
    intro l h
    have : l = [] := List.length_eq_zero.mp (Nat.le_zero.mp h)
    subst this; rfl
  | succ n ih =>
    intro l h
    cases l with
    | nil => rfl
    | cons c rest =>
      have hrest : rest.length ≤ n := Nat.le_of_succ_le_succ h
      by_cases hc : c == '<'
      · cases hsp : splitAtGt rest with
        | some rest2 =>
          simp only [stripTagsF, hc, if_true, hsp]
          exact ih rest2 (Nat.le_of_lt (Nat.lt_of_lt_of_le (splitAtGt_length hsp) hrest))
        | none =>
          have hgt : hasChar '>' rest = false := (splitAtGt_eq_none_iff rest).mp hsp
          simp [stripTagsF, hc, hsp, noTagB,
            stripTagsF_hasChar '>' n rest hgt, ih rest hrest]
      · simp [stripTagsF, hc, noTagB, ih rest hrest]

/-! ### `replaceAll`/`entityDecode` lemmas -/

theorem replaceAllF_eq_of_no_head (ps rep : List Char) :
    ∀ (n : Nat) (l : List Char), hasChar '&' l = false →
      replaceAllF '&' ps rep n l = l := by
  intro n
  induction n with
  | zero => intro l _; cases l <;> rfl
  | succ n ih =>
    intro l h
    cases l with
    | nil => rfl
    | cons c rest =>
      simp only [hasChar, Bool.or_eq_false_iff] at h
      have hne : ('&' == c) = false := by
        have : (c == '&') = false := h.1
        simp only [beq_eq_false_iff_ne] at this ⊢
        exact fun hcase => this hcase.symm
      simp [replaceAllF, List.isPrefixOf, hne, ih rest h.2]

theorem replaceAll_amp_id (pat rep : String) (l : List Char)
    (hpat : pat.data.head? = some '&') (h : hasChar '&' l = false) :
    replaceAll pat rep l = l := by
  cases hd : pat.data with
  | nil => simp [replaceAll, hd]
  | cons p0 ps =>
    have hp0 : p0 = '&' := by
      rw [hd] at hpat
      exact (by simpa using hpat.symm : '&' = p0).symm
    subst hp0
    simp only [replaceAll, hd]
    exact replaceAllF_eq_of_no_head ps rep.data l.length l h

theorem entityDecode_eq_of_no_amp (l : List Char)
    (h : hasChar '&' l = false) : entityDecode l = l := by
  unfold entityDecode
  rw [replaceAll_amp_id "&nbsp;" " " l (by decide) h,
      replaceAll_amp_id "&amp;" "&" l (by decide) h,
      replaceAll_amp_id "&lt;" "<" l (by decide) h,
      replaceAll_amp_id "&gt;" ">" l (by decide) h,
      replaceAll_amp_id "&quot;" "\"" l (by decide) h,
      replaceAll_amp_id "&#39;" "'" l (by decide) h,
      replaceAll_amp_id "&ndash;" "–" l (by decide) h,
      replaceAll_amp_id "&mdash;" "—" l (by decide) h,
      replaceAll_amp_id "&pound;" "£" l (by decide) h]

/-! ### `collapseWs` lemmas -/

theorem noAdjWs_tail {c : Char} {t : List Char}
    (h : noAdjWs (c :: t) = true) : noAdjWs t = true := by
  cases t with
  | nil => rfl
  | cons d rest =>
    simp only [noAdjWs, Bool.and_eq_true] at h
    exact h.2

theorem noAdjWs_cons_headNotWs (c : Char) (t : List Char)
    (h1 : headNotWs t = true) (h2 : noAdjWs t = true) :
    noAdjWs (c :: t) = true := by
  cases t with
  | nil => rfl
  | cons d rest =>
    have hd : isJsSpace d = false := by simpa [headNotWs] using h1
    simp [noAdjWs, hd, h2]

theorem noAdjWs_cons_notWs (c : Char) (t : List Char)
    (hc : isJsSpace c = false) (h2 : noAdjWs t = true) :
    noAdjWs (c :: t) = true := by
  cases t with
  | nil => rfl
  | cons d rest => simp [noAdjWs, hc, h2]

theorem collapseWsF_headNotWs (n : Nat) (l : List Char)
    (h : headNotWs l = true) : headNotWs (collapseWsF n l) = true := by
  cases n with
  | zero => cases l <;> simpa [collapseWsF] using h
  | succ n =>
    cases l with
    | nil => rfl
    | cons c rest =>
      have hc : isJsSpace c = false := by simpa [headNotWs] using h
      simp [collapseWsF, hc, headNotWs]

theorem collapseWsF_hasChar (x : Char) (hx : x ≠ ' ') :
    ∀ (n : Nat) (l : List Char), hasChar x l = false →
      hasChar x (collapseWsF n l) = false := by
  intro n
  induction n with
  | zero => intro l h; cases l <;> simpa [collapseWsF] using h
  | succ n ih =>
    intro l h
    cases l with
    | nil => rfl
    | cons c rest =>
      simp only [hasChar, Bool.or_eq_false_iff] at h
      by_cases hc : isJsSpace c
      · have hsp : (' ' == x) = false := by
          simp only [beq_eq_false_iff_ne]
          exact fun hcase => hx hcase.symm
        simp [collapseWsF, hc, hasChar, hsp,
          ih _ (hasChar_dropWhile x isJsSpace rest h.2)]
      · simp [collapseWsF, hc, hasChar, h.1, ih rest h.2]

theorem collapseWsF_wsOnly :
    ∀ (n : Nat) (l : List Char), l.length ≤ n →
      wsOnlySpace (collapseWsF n l) = true := by
  intro n
  induction n with
  | zero =>
    intro l h
    have : l = [] := List.length_eq_zero.mp (Nat.le_zero.mp h)
    subst this; rfl
  | succ n ih =>
    intro l h
    cases l with
    | nil => rfl
    | cons c rest =>
      have hrest : rest.length ≤ n := Nat.le_of_succ_le_succ h
      by_cases hc : isJsSpace c
      · have : (rest.dropWhile isJsSpace).length ≤ n :=
          Nat.le_trans (length_dropWhile_le isJsSpace rest) hrest
        simp [collapseWsF, hc, wsOnlySpace, ih _ this]
      · simp [collapseWsF, hc, wsOnlySpace, ih rest hrest]

theorem collapseWsF_noAdj :
    ∀ (n : Nat) (l : List Char), l.length ≤ n →
      noAdjWs (collapseWsF n l) = true := by
  intro n
  induction n with
  | zero =>
    intro l h
    have : l = [] := List.length_eq_zero.mp (Nat.le_zero.mp h)
    subst this; rfl
  | succ n ih =>
    intro l h
    cases l with
    | nil => rfl
    | cons c rest =>
      have hrest : rest.length ≤ n := Nat.le_of_succ_le_succ h
      by_cases hc : isJsSpace c
      · have hlen : (rest.dropWhile isJsSpace).length ≤ n :=
          Nat.le_trans (length_dropWhile_le isJsSpace rest) hrest
        have hhead : headNotWs (collapseWsF n (rest.dropWhile isJsSpace)) = true :=
          collapseWsF_headNotWs n _ (headNotWs_dropWhile rest)
        simp only [collapseWsF, hc, if_true]
        exact noAdjWs_cons_headNotWs ' ' _ hhead (ih _ hlen)
      · simp only [collapseWsF, hc, if_false]
        exact noAdjWs_cons_notWs c _ (by simpa using hc) (ih rest hrest)

theorem collapseWsF_eq_self :
    ∀ (n : Nat) (l : List Char), wsOnlySpace l = true → noAdjWs l = true →
      collapseWsF n l = l := by
  intro n
  induction n with
  | zero => intro l _ _; cases l <;> rfl
  | succ n ih =>
    intro l hws hadj
    cases l with
    | nil => rfl
    | cons c rest =>
      simp only [wsOnlySpace, Bool.and_eq_true] at hws
      by_cases hc : isJsSpace c
      · have hcsp : c = ' ' := by
          have := hws.1
          simp only [hc, Bool.not_true, Bool.false_or, beq_iff_eq] at this
          exact this
        have hhead : headNotWs rest = true := by
          cases rest with
          | nil => rfl
          | cons d r2 =>
            have := hadj
            simp only [noAdjWs, Bool.and_eq_true, Bool.not_eq_true',
              Bool.and_eq_false_iff] at this
            rcases this.1 with h1 | h2
            · exact absurd h1 (by simp [hc])
            · simp [headNotWs, h2]
        have hdw : rest.dropWhile isJsSpace = rest :=
          dropWhile_eq_self_of_headNotWs rest hhead
        simp [collapseWsF, hc, hdw, hcsp, ih rest hws.2 (noAdjWs_tail hadj)]
      · simp [collapseWsF, hc, ih rest hws.2 (noAdjWs_tail hadj)]

theorem noTagB_tail {c : Char} {t : List Char}
    (h : noTagB (c :: t) = true) : noTagB t = true := by
  simp only [noTagB, Bool.and_eq_true] at h
  exact h.2

theorem noTagB_dropWhile (p : Char → Bool) (l : List Char)
    (h : noTagB l = true) : noTagB (l.dropWhile p) = true := by
  induction l with
  | nil => rfl
  | cons c rest ih =>
    by_cases hp : p c
    · simpa [List.dropWhile_cons, hp] using ih (noTagB_tail h)
    · simpa [List.dropWhile_cons, hp] using h

theorem collapseWsF_noTag :
    ∀ (n : Nat) (l : List Char), noTagB l = true →
      noTagB (collapseWsF n l) = true := by
  intro n
  induction n with
  | zero => intro l h; cases l <;> simpa [collapseWsF] using h
  | succ n ih =>
    intro l h
    cases l with
    | nil => rfl
    | cons c rest =>
      simp only [noTagB, Bool.and_eq_true] at h
      by_cases hc : isJsSpace c
      · have : noTagB (rest.dropWhile isJsSpace) = true :=
          noTagB_dropWhile isJsSpace rest h.2
        simp [collapseWsF, hc, noTagB, ih _ this]
      · by_cases hlt : c == '<'
        · have hgt : hasChar '>' rest = false := by
            have := h.1
            simpa [hlt] using this
          simp [collapseWsF, hc, noTagB, hlt,
            collapseWsF_hasChar '>' (by decide) n rest hgt, ih rest h.2]
        · simp [collapseWsF, hc, noTagB, hlt, ih rest h.2]

/-! ### `trimList` lemmas -/

theorem rtrim_prefix (l : List Char) : ∃ t, l = rtrim l ++ t := by
  obtain ⟨s, hs⟩ := dropWhile_suffix isJsSpace l.reverse
  refine ⟨s.reverse, ?_⟩
  have := congrArg List.reverse hs
  simpa [rtrim, List.reverse_append] using this

theorem noTagB_append_left {a b : List Char}
    (h : noTagB (a ++ b) = true) : noTagB a = true := by
  induction a with
  | nil => rfl
  | cons c rest ih =>
    simp only [List.cons_append, noTagB, Bool.and_eq_true] at h
    simp only [noTagB, Bool.and_eq_true]
    refine ⟨?_, ih h.2⟩
    by_cases hc : c == '<'
    · have := h.1
      simp only [hc, if_true, Bool.not_eq_true'] at this ⊢
      rw [List.append_eq, hasChar_append] at this
      exact (Bool.or_eq_false_iff.mp this).1
    · simp [hc]

theorem wsOnly_append (a b : List Char) :
    wsOnlySpace (a ++ b) = (wsOnlySpace a && wsOnlySpace b) := by
  induction a with
  | nil => simp [wsOnlySpace]
  | cons c rest ih => simp [wsOnlySpace, ih, Bool.and_assoc]

theorem noAdjWs_append_left {a b : List Char}
    (h : noAdjWs (a ++ b) = true) : noAdjWs a = true := by
  induction a with
  | nil => rfl
  | cons c rest ih =>
    cases rest with
    | nil => rfl
    | cons d r2 =>
      simp only [List.cons_append, noAdjWs, Bool.and_eq_true] at h
      have h2 : noAdjWs (d :: r2) = true := ih h.2
      simp [noAdjWs, h.1, h2]

theorem hasChar_rtrim (x : Char) (l : List Char)
    (h : hasChar x l = false) : hasChar x (rtrim l) = false := by
  unfold rtrim
  rw [hasChar_reverse]
  exact hasChar_dropWhile x isJsSpace l.reverse (by rwa [hasChar_reverse])

theorem hasChar_trimList (x : Char) (l : List Char)
    (h : hasChar x l = false) : hasChar x (trimList l) = false :=
  hasChar_rtrim x _ (hasChar_dropWhile x isJsSpace l h)

theorem hasChar_append_left {x : Char} {a b : List Char}
    (h : hasChar x (a ++ b) = false) : hasChar x a = false := by
  rw [hasChar_append] at h
  exact (Bool.or_eq_false_iff.mp h).1

theorem noTagB_trimList (l : List Char)
    (h : noTagB l = true) : noTagB (trimList l) = true := by
  have h1 : noTagB (ltrim l) = true := noTagB_dropWhile isJsSpace l h
  obtain ⟨t, ht⟩ := rtrim_prefix (ltrim l)
  exact noTagB_append_left (ht ▸ h1)

theorem wsOnly_trimList (l : List Char)
    (h : wsOnlySpace l = true) : wsOnlySpace (trimList l) = true := by
  have h1 : wsOnlySpace (ltrim l) = true := by
    obtain ⟨s, hs⟩ := dropWhile_suffix isJsSpace l
    rw [hs, wsOnly_append, Bool.and_eq_true] at h
    exact h.2
  obtain ⟨t, ht⟩ := rtrim_prefix (ltrim l)
  rw [ht, wsOnly_append, Bool.and_eq_true] at h1
  exact h1.1

theorem noAdjWs_dropWhile (p : Char → Bool) (l : List Char)
    (h : noAdjWs l = true) : noAdjWs (l.dropWhile p) = true := by
  induction l with
  | nil => rfl
  | cons c rest ih =>
    by_cases hp : p c
    · simpa [List.dropWhile_cons, hp] using ih (noAdjWs_tail h)
    · simpa [List.dropWhile_cons, hp] using h

theorem noAdjWs_trimList (l : List Char)
    (h : noAdjWs l = true) : noAdjWs (trimList l) = true := by
  have h1 : noAdjWs (ltrim l) = true := noAdjWs_dropWhile isJsSpace l h
  obtain ⟨t, ht⟩ := rtrim_prefix (ltrim l)
  exact noAdjWs_append_left (ht ▸ h1)

theorem rtrim_idem (l : List Char) : rtrim (rtrim l) = rtrim l := by
  unfold rtrim
  rw [List.reverse_reverse, dropWhile_idem]

theorem headNotWs_append_left {a b : List Char}
    (h : headNotWs (a ++ b) = true) (ha : a ≠ []) : headNotWs a = true := by
  cases a with
  | nil => exact absurd rfl ha
  | cons c rest => simpa [headNotWs] using h

theorem ltrim_rtrim_ltrim (l : List Char) :
    ltrim (rtrim (ltrim l)) = rtrim (ltrim l) := by
  have hhead : headNotWs (ltrim l) = true := headNotWs_dropWhile l
  by_cases hnil : rtrim (ltrim l) = []
  · rw [hnil]; rfl
  · obtain ⟨t, ht⟩ := rtrim_prefix (ltrim l)
    have : headNotWs (rtrim (ltrim l)) = true :=
      headNotWs_append_left (ht ▸ hhead) hnil
    exact dropWhile_eq_self_of_headNotWs _ this

theorem trimList_idem (l : List Char) :
    trimList (trimList l) = trimList l := by
  unfold trimList
  rw [ltrim_rtrim_ltrim, rtrim_idem]

theorem asString_data (l : List Char) : (l.asString).data = l := rfl

/-! ### Idempotence of `sanitizeText` on `'&'`-free input -/

theorem sanitizePipe_fixed (l : List Char) (h : hasChar '&' l = false) :
    sanitizePipe (sanitizePipe l) = sanitizePipe l := by
  have hamp1 : hasChar '&' (stripTags l) = false :=
    stripTagsF_hasChar '&' l.length l h
  have hed : entityDecode (stripTags l) = stripTags l :=
    entityDecode_eq_of_no_amp _ hamp1
  have htag1 : noTagB (stripTags l) = true :=
    stripTagsF_noTag l.length l (Nat.le_refl _)
  have htag2 : noTagB (collapseWs (stripTags l)) = true :=
    collapseWsF_noTag _ _ htag1
  have hws : wsOnlySpace (collapseWs (stripTags l)) = true :=
    collapseWsF_wsOnly _ _ (Nat.le_refl _)
  have hadj : noAdjWs (collapseWs (stripTags l)) = true :=
    collapseWsF_noAdj _ _ (Nat.le_refl _)
  have hamp2 : hasChar '&' (collapseWs (stripTags l)) = false :=
    collapseWsF_hasChar '&' (by decide) _ _ hamp1
  set t := trimList (collapseWs (stripTags l)) with htdef
  have htag3 : noTagB t = true := noTagB_trimList _ htag2
  have hws3 : wsOnlySpace t = true := wsOnly_trimList _ hws
  have hadj3 : noAdjWs t = true := noAdjWs_trimList _ hadj
  have hamp3 : hasChar '&' t = false := hasChar_trimList '&' _ hamp2
  have hpipe1 : sanitizePipe l = t := by
    simp only [sanitizePipe, hed, htdef]
  rw [hpipe1]
  show trimList (collapseWs (entityDecode (stripTags t))) = t
  rw [show stripTags t = t from stripTagsF_eq_of_noTag t.length t htag3,
      entityDecode_eq_of_no_amp t hamp3,
      show collapseWs t = t from collapseWsF_eq_self t.length t hws3 hadj3,
      htdef, trimList_idem]

/-! ## Data model

`IdoxGrant` mirrors the TypeScript interface: seven required string fields
plus five optional enrichment fields (TS `field?: string`, i.e. possibly
`undefined`, modelled as `Option String` with `none` for `undefined`). -/

structure IdoxGrant where
  title : String
  funder : String
  maxAmount : String
  deadline : String
  status : String
  link : String
  areaOfWork : String
  description : Option String
  eligibility : Option String
  howToApply : Option String
  contactInfo : Option String
  additionalInfo : Option String
deriving DecidableEq, Repr

structure FiltersUsed where
  status : List String
  areaOfWork : List String
deriving DecidableEq, Repr

structure IdoxScrapeResult where
  grants : List IdoxGrant
  totalFound : Nat
  filtersUsed : FiltersUsed
  timestamp : String
  scrapeDurationMs : Nat
  enriched : Bool
deriving DecidableEq, Repr

structure ScrapeOptions where
  enrich : Bool
deriving DecidableEq, Repr

/-- Progress events (`ProgressEvent` in the source: type `'phase' |
'progress' | 'grant' | 'page'`; the `'page'` variant is declared but never
emitted).  Phase payloads carry `phase`/`message` plus at most one count
(`grantsFound` / `totalGrants`). -/
inductive PEvent where
  | phase (name message : String) (count : Option Nat)
  | progress (current total : Nat) (grantTitle : String) (percentage : Nat)
  | grant (g : IdoxGrant)
  | page (data : String)
deriving DecidableEq, Repr

/-- The three fatal error kinds that escape the core. -/
inductive ScrapeError where
  | configurationError (msg : String)
  | authenticationError (msg : String)
  | navigationTimeout (msg : String)
deriving DecidableEq, Repr

/-- Session/network activity, recorded so that theorems can state that
nothing was done before a failure. -/
inductive Action where
  | launchBrowser
  | gotoPortal
  | loginSubmit
  | extractListing
  | enrichDetails
deriving DecidableEq, Repr

/-- One `<li>` of the listing page as the extractor reads it:
all anchors in document order (text content and `href` attribute), the
`h3 + p` funder text if present, and the `dt`/sibling text pairs of its
definition lists (raw `textContent`, trimming is done by the extractor). -/
structure RawAnchor where
  text : String
  href : String
deriving DecidableEq, Repr

structure RawListItem where
  anchors : List RawAnchor
  funderText : Option String
  defPairs : List (String × String)
deriving DecidableEq, Repr

/-- What the detail-page `page.evaluate` block reads from the DOM before
truncation: the heading-driven section texts, the joined area-of-work tag
string and the catch-all page text. -/
structure DetailPage where
  description : String
  eligibility : String
  howToApply : String
  contactInfo : String
  areaOfWork : String
  additionalInfo : String
deriving DecidableEq, Repr

/-- The whole browser/portal as an oracle: one field per independent DOM
observation the scraper makes.  `pages n` is the listing DOM after
navigating to page `n`; `details i` is the detail page for the `i`-th
record (`none` = navigation/extraction failure for that record). -/
structure ScrapeEnv where
  portalLoads : Bool
  loginFormAppears : Bool
  stillOnLogin : Bool
  validationMsg : String
  pages : Nat → List RawListItem
  nextByTitle : Nat → Bool
  nextByRole : Nat → Bool
  nextByEval : Nat → Bool
  details : Nat → Option DetailPage
  timestamp : String
  durationMs : Nat

def IDOX_BASE : String := "https://funding.idoxopen4community.co.uk"

def STATUS_FILTERS : List String := ["Open for Applications", "Future"]

def AREA_OF_WORK_FILTERS : List String :=
  ["Community", "Disability", "Supporting Parents and Children",
   "Promoting Mental Health", "Promoting Physical Health",
   "Community Facilities", "Sport and Recreation", "Play Opportunities"]

/-! ## Record Extractor (`extractGrantsFromPage`) -/

/-- `item.querySelector('a[href*="/Scheme/View/"]')`. -/
def schemeAnchor (it : RawListItem) : Option RawAnchor :=
  it.anchors.find? (fun a => containsSub "/Scheme/View/" a.href)

/-- One iteration of the `dt` loop: `'Status'`, `'Maximum value'`,
`'Current deadline'` labels are matched on trimmed text and each match
overwrites the accumulator, so the last matching pair wins. -/
def dtStep (acc : String × String × String) (pr : String × String) :
    String × String × String :=
  let label := jsTrim pr.1
  let value := jsTrim pr.2
  if label = "Status" then (value, acc.2.1, acc.2.2)
  else if label = "Maximum value" then (acc.1, value, acc.2.2)
  else if label = "Current deadline" then (acc.1, acc.2.1, value)
  else acc

/-- The `terms.forEach` loop over the `dt`/value pairs, starting from
empty strings: returns (status, maxAmount, deadline). -/
def dtFold (pairs : List (String × String)) : String × String × String :=
  pairs.foldl dtStep ("", "", "")

/-- `data.link.startsWith('http') ? data.link : base + data.link`. -/
def normalizeLink (href : String) : String :=
  if jsStartsWith "http" href then href else IDOX_BASE ++ href

/-- One listing item → one optional record: skipped when there is no
scheme link, and dropped when the trimmed title or the raw href is empty
(`if (title && href)`); every other missing field defaults to `''`. -/
def mkGrantFromItem (it : RawListItem) : Option IdoxGrant :=
  match schemeAnchor it with
  | none => none
  | some a =>
    let title := jsTrim a.text
    let href := a.href
    if title ≠ "" ∧ href ≠ "" then
      let svd := dtFold it.defPairs
      some
        { title := title
          funder := jsTrim (it.funderText.getD "")
          maxAmount := svd.2.1
          deadline := svd.2.2
          status := svd.1
          link := normalizeLink href
          areaOfWork := ""
          description := none
          eligibility := none
          howToApply := none
          contactInfo := none
          additionalInfo := none }
    else none

def extractGrantsFromPage (items : List RawListItem) : List IdoxGrant :=
  items.filterMap mkGrantFromItem

/-! ## Pagination Walker (`extractGrantsSimple`)

The loop keeps a 1-based page cursor bounded by `MAX_PAGES = 60`; on each
page it extracts, stops on an empty page, otherwise tries the three
next-page strategies in order (title attribute, accessible role name, raw
`ul.pagination` scan with a scripted click) and advances if any succeeds.
The walker returns the accumulated records together with the number of
listing pages it processed.  The fuel argument is `61 - currentPage`,
structurally decreasing. -/

def MAX_PAGES : Nat := 60

def hasNextPage (env : ScrapeEnv) (n : Nat) : Bool :=
  env.nextByTitle n || env.nextByRole n || env.nextByEval n

def extractFromF (env : ScrapeEnv) : Nat → Nat → List IdoxGrant × Nat
  | 0, _ => ([], 0)
  | fuel + 1, cp =>
    if cp > MAX_PAGES then ([], 0)
    else
      let pg := extractGrantsFromPage (env.pages cp)
      if pg = [] then ([], 1)
      else if hasNextPage env cp then
        let r := extractFromF env fuel (cp + 1)
        (pg ++ r.1, r.2 + 1)
      else (pg, 1)

def extractGrantsSimple (env : ScrapeEnv) : List IdoxGrant × Nat :=
  extractFromF env (MAX_PAGES + 1) 1

/-! ## Enrichment Pipeline (`enrichGrants`) -/

/-- The `substring(0, …)` truncations applied inside the detail-page
`evaluate` (description/eligibility 2000, howToApply 1000, contactInfo
500, additionalInfo 500; the joined areaOfWork string is not truncated). -/
def truncDetails (d : DetailPage) : DetailPage :=
  { description := jsSubstrTo 2000 d.description
    eligibility := jsSubstrTo 2000 d.eligibility
    howToApply := jsSubstrTo 1000 d.howToApply
    contactInfo := jsSubstrTo 500 d.contactInfo
    areaOfWork := d.areaOfWork
    additionalInfo := jsSubstrTo 500 d.additionalInfo }

/-- `sanitizeText(x) || undefined`: the empty string is falsy. -/
def emptyToNone (s : String) : Option String :=
  if s = "" then none else some s

/-- `{...grant, description: sanitizeText(details.description) || undefined, ...}`:
title/link and the other listing fields are kept; each enriched field is
overwritten by its sanitized extraction or becomes `undefined`; `areaOfWork`
falls back to the grant's previous value. -/
def mergeDetails (g : IdoxGrant) (d : DetailPage) : IdoxGrant :=
  { title := g.title
    funder := g.funder
    maxAmount := g.maxAmount
    deadline := g.deadline
    status := g.status
    link := g.link
    areaOfWork :=
      if sanitizeText d.areaOfWork = "" then g.areaOfWork
      else sanitizeText d.areaOfWork
    description := emptyToNone (sanitizeText d.description)
    eligibility := emptyToNone (sanitizeText d.eligibility)
    howToApply := emptyToNone (sanitizeText d.howToApply)
    contactInfo := emptyToNone (sanitizeText d.contactInfo)
    additionalInfo := emptyToNone (sanitizeText d.additionalInfo) }

/-- `Math.round(((i + 1) / total) * 100)` (IEEE-754 rounding of the
non-representable intermediate is modelled as exact rational
round-half-up; no verified property depends on this value). -/
def jsRoundPct (num den : Nat) : Nat := (200 * num + den) / (2 * den)

/-- The record produced for index `i`: the original grant on failure
(`details i = none`), the merged enrichment on success. -/
def applyEnrich (details : Nat → Option DetailPage) (i : Nat) (g : IdoxGrant) :
    IdoxGrant :=
  match details i with
  | none => g
  | some d => mergeDetails g (truncDetails d)

/-- The body of `enrichGrants`: walk the list with a running index,
always emit the progress event first, then on success push the merged
record and emit its `grant` event, on failure push the original record. -/
def enrichStep (details : Nat → Option DetailPage) (total : Nat) :
    Nat → List IdoxGrant → List IdoxGrant × List PEvent
  | _, [] => ([], [])
  | i, g :: rest =>
    let ev := PEvent.progress (i + 1) total (jsSubstrTo 60 g.title)
      (jsRoundPct (i + 1) total)
    match details i with
    | some d =>
      let eg := mergeDetails g (truncDetails d)
      let r := enrichStep details total (i + 1) rest
      (eg :: r.1, ev :: PEvent.grant eg :: r.2)
    | none =>
      let r := enrichStep details total (i + 1) rest
      (g :: r.1, ev :: r.2)

def enrichGrants (details : Nat → Option DetailPage) (grants : List IdoxGrant) :
    List IdoxGrant × List PEvent :=
  enrichStep details grants.length 0 grants

/-! ## Orchestrator: the two entry points

Best-effort steps whose failure is swallowed and whose outcome does not
affect the returned value (cookie banner, search-link navigation, filter
checkboxes, search submission, the advisory `Page X of Y` log line and all
`console.log` calls) are not modelled; their DOM effects are part of the
`pages` oracle. -/

def CONFIG_ERROR_MSG : String :=
  "IDOX_USERNAME and IDOX_PASSWORD environment variables required"

/-- `scrapeIdoxGrants(options)`: blocking entry point.  Credentials are
the module constants (empty string when the environment variable is
absent); `!IDOX_USERNAME || !IDOX_PASSWORD` is the empty-string test. -/
def scrapeIdoxGrants (username password : String) (opts : ScrapeOptions)
    (env : ScrapeEnv) : Except ScrapeError IdoxScrapeResult × List Action :=
  if username = "" ∨ password = "" then
    (Except.error (ScrapeError.configurationError CONFIG_ERROR_MSG), [])
  else if ¬ env.portalLoads then
    (Except.error (ScrapeError.navigationTimeout "portal page load timed out"),
     [Action.launchBrowser, Action.gotoPortal])
  else if ¬ env.loginFormAppears then
    (Except.error (ScrapeError.navigationTimeout "login form not found"),
     [Action.launchBrowser, Action.gotoPortal])
  else if env.stillOnLogin then
    (Except.error (ScrapeError.authenticationError env.validationMsg),
     [Action.launchBrowser, Action.gotoPortal, Action.loginSubmit])
  else
    let grants := (extractGrantsSimple env).1
    let doEnrich := opts.enrich = true ∧ 0 < grants.length
    let finalGrants :=
      if doEnrich then (enrichGrants env.details grants).1 else grants
    (Except.ok
      { grants := finalGrants
        totalFound := finalGrants.length
        filtersUsed := ⟨STATUS_FILTERS, AREA_OF_WORK_FILTERS⟩
        timestamp := env.timestamp
        scrapeDurationMs := env.durationMs
        enriched := opts.enrich },
     [Action.launchBrowser, Action.gotoPortal, Action.loginSubmit,
      Action.extractListing] ++ (if doEnrich then [Action.enrichDetails] else []))

/-- `scrapeIdoxGrantsWithProgress(options, onProgress)`: streaming entry
point; identical control flow plus the ordered phase events, with the
enrichment progress/grant events forwarded verbatim. -/
def scrapeIdoxGrantsWithProgress (username password : String)
    (opts : ScrapeOptions) (env : ScrapeEnv) :
    Except ScrapeError IdoxScrapeResult × List Action × List PEvent :=
  if username = "" ∨ password = "" then
    (Except.error (ScrapeError.configurationError CONFIG_ERROR_MSG), [], [])
  else if ¬ env.portalLoads then
    (Except.error (ScrapeError.navigationTimeout "portal page load timed out"),
     [Action.launchBrowser, Action.gotoPortal],
     [PEvent.phase "launching" "Launching browser..." none,
      PEvent.phase "login" "Logging into Idox portal..." none])
  else if ¬ env.loginFormAppears then
    (Except.error (ScrapeError.navigationTimeout "login form not found"),
     [Action.launchBrowser, Action.gotoPortal],
     [PEvent.phase "launching" "Launching browser..." none,
      PEvent.phase "login" "Logging into Idox portal..." none])
  else if env.stillOnLogin then
    (Except.error (ScrapeError.authenticationError env.validationMsg),
     [Action.launchBrowser, Action.gotoPortal, Action.loginSubmit],
     [PEvent.phase "launching" "Launching browser..." none,
      PEvent.phase "login" "Logging into Idox portal..." none])
  else
    let evLaunch := PEvent.phase "launching" "Launching browser..." none
    let evLogin := PEvent.phase "login" "Logging into Idox portal..." none
    let evSearch := PEvent.phase "searching" "Searching for grants..." none
    let evExtract := PEvent.phase "extracting"
      "Extracting grants from search results..." none
    let grants := (extractGrantsSimple env).1
      let evExtracted := PEvent.phase "extracted"
        ("Found " ++ toString grants.length ++ " grants") (some grants.length)
      let doEnrich := opts.enrich = true ∧ 0 < grants.length
      let enrichRun := enrichGrants env.details grants
      let finalGrants := if doEnrich then enrichRun.1 else grants
      let enrichEvents :=
        if doEnrich then
          PEvent.phase "enriching_start"
            ("Starting enrichment of " ++ toString grants.length ++ " grants...")
            (some grants.length) :: enrichRun.2
        else []
      (Except.ok
        { grants := finalGrants
          totalFound := finalGrants.length
          filtersUsed := ⟨STATUS_FILTERS, AREA_OF_WORK_FILTERS⟩
          timestamp := env.timestamp
          scrapeDurationMs := env.durationMs
          enriched := opts.enrich },
       [Action.launchBrowser, Action.gotoPortal, Action.loginSubmit,
        Action.extractListing] ++ (if doEnrich then [Action.enrichDetails] else []),
       [evLaunch, evLogin, evSearch, evExtract, evExtracted] ++ enrichEvents)

/-! ## Lemmas about the Enrichment Pipeline -/

/-- The `current` fields of the `progress` events, in emission order. -/
def progressCurrents (evs : List PEvent) : List Nat :=
  evs.filterMap fun e =>
    match e with
    | PEvent.progress c _ _ _ => some c
    | _ => none

/-- The payloads of the `grant` events, in emission order. -/
def grantEvents (evs : List PEvent) : List IdoxGrant :=
  evs.filterMap fun e =>
    match e with
    | PEvent.grant g => some g
    | _ => none

/-- `countUp s n = [s, s+1, …, s+n-1]`. -/
def countUp : Nat → Nat → List Nat
  | _, 0 => []
  | s, n + 1 => s :: countUp (s + 1) n

theorem countUp_chain (n : Nat) : ∀ s, List.Chain' (· < ·) (countUp s n) := by
  induction n with
  | zero => intro s; exact List.chain'_nil
  | succ n ih =>
    intro s
    cases n with
    | zero => simp [countUp]
    | succ m =>
      rw [countUp, countUp]
      exact (List.chain'_cons).mpr ⟨Nat.lt_succ_self s, by rw [← countUp]; exact ih (s + 1)⟩

theorem enrichStep_length (details : Nat → Option DetailPage) (total : Nat) :
    ∀ (gs : List IdoxGrant) (k : Nat),
      (enrichStep details total k gs).1.length = gs.length := by
  intro gs
  induction gs with
  | nil => intro k; rfl
  | cons g rest ih =>
    intro k
    cases hd : details k with
    | some d => simp [enrichStep, hd, ih (k + 1)]
    | none => simp [enrichStep, hd, ih (k + 1)]

theorem enrichStep_get? (details : Nat → Option DetailPage) (total : Nat) :
    ∀ (gs : List IdoxGrant) (k i : Nat),
      (enrichStep details total k gs).1.get? i =
        (gs.get? i).map (fun g => applyEnrich details (k + i) g) := by
  intro gs
  induction gs with
  | nil => intro k i; rfl
  | cons g rest ih =>
    intro k i
    cases i with
    | zero =>
      cases hd : details k with
      | some d => simp [enrichStep, hd, applyEnrich]
      | none => simp [enrichStep, hd, applyEnrich]
    | succ i =>
      have harith : k + 1 + i = k + (i + 1) := by omega
      cases hd : details k with
      | some d => simpa [enrichStep, hd, harith] using ih (k + 1) i
      | none => simpa [enrichStep, hd, harith] using ih (k + 1) i

theorem enrichStep_progressCurrents (details : Nat → Option DetailPage)
    (total : Nat) :
    ∀ (gs : List IdoxGrant) (k : Nat),
      progressCurrents (enrichStep details total k gs).2 =
        countUp (k + 1) gs.length := by
  intro gs
  induction gs with
  | nil => intro k; rfl
  | cons g rest ih =>
    intro k
    cases hd : details k with
    | some d =>
      simp [enrichStep, hd, progressCurrents, List.filterMap_cons, countUp,
        ← ih (k + 1)]
    | none =>
      simp [enrichStep, hd, progressCurrents, List.filterMap_cons, countUp,
        ← ih (k + 1)]

/-- The successfully enriched records, in processing order (what the
`grant` events should be). -/
def successEnriched (details : Nat → Option DetailPage) :
    Nat → List IdoxGrant → List IdoxGrant
  | _, [] => []
  | i, g :: rest =>
    match details i with
    | some d => mergeDetails g (truncDetails d) :: successEnriched details (i + 1) rest
    | none => successEnriched details (i + 1) rest

theorem enrichStep_grantEvents (details : Nat → Option DetailPage)
    (total : Nat) :
    ∀ (gs : List IdoxGrant) (k : Nat),
      grantEvents (enrichStep details total k gs).2 =
        successEnriched details k gs := by
  intro gs
  induction gs with
  | nil => intro k; rfl
  | cons g rest ih =>
    intro k
    cases hd : details k with
    | some d =>
      simp [enrichStep, hd, grantEvents, List.filterMap_cons, successEnriched,
        ← ih (k + 1)]
    | none =>
      simp [enrichStep, hd, grantEvents, List.filterMap_cons, successEnriched,
        ← ih (k + 1)]

theorem applyEnrich_title (details : Nat → Option DetailPage) (i : Nat)
    (g : IdoxGrant) : (applyEnrich details i g).title = g.title := by
  unfold applyEnrich
  cases details i <;> rfl

theorem applyEnrich_link (details : Nat → Option DetailPage) (i : Nat)
    (g : IdoxGrant) : (applyEnrich details i g).link = g.link := by
  unfold applyEnrich
  cases details i <;> rfl

theorem enrichStep_mem (details : Nat → Option DetailPage) (total : Nat) :
    ∀ (gs : List IdoxGrant) (k : Nat) (g' : IdoxGrant),
      g' ∈ (enrichStep details total k gs).1 →
        ∃ i g, g ∈ gs ∧ g' = applyEnrich details i g := by
  intro gs
  induction gs with
  | nil => intro k g' h; simp [enrichStep] at h
  | cons g rest ih =>
    intro k g' h
    cases hd : details k with
    | some d =>
      rw [enrichStep] at h
      simp only [hd, List.mem_cons] at h
      rcases h with h | h
      · exact ⟨k, g, List.mem_cons_self g rest, by simp [applyEnrich, hd, h]⟩
      · obtain ⟨i, g0, hg0, he⟩ := ih (k + 1) g' h
        exact ⟨i, g0, List.mem_cons_of_mem g hg0, he⟩
    | none =>
      rw [enrichStep] at h
      simp only [hd, List.mem_cons] at h
      rcases h with h | h
      · exact ⟨k, g, List.mem_cons_self g rest, by simp [applyEnrich, hd, h]⟩
      · obtain ⟨i, g0, hg0, he⟩ := ih (k + 1) g' h
        exact ⟨i, g0, List.mem_cons_of_mem g hg0, he⟩

/-! ## Lemmas about the Record Extractor -/

theorem mkGrantFromItem_eq_some {it : RawListItem} {g : IdoxGrant}
    (h : mkGrantFromItem it = some g) :
    ∃ a, schemeAnchor it = some a ∧ jsTrim a.text ≠ "" ∧ a.href ≠ "" ∧
      g.title = jsTrim a.text ∧ g.link = normalizeLink a.href := by
  cases hsa : schemeAnchor it with
  | none => simp [mkGrantFromItem, hsa] at h
  | some a =>
    simp only [mkGrantFromItem, hsa] at h
    by_cases hcond : jsTrim a.text ≠ "" ∧ a.href ≠ ""
    · rw [if_pos hcond] at h
      obtain rfl := Option.some.inj h
      exact ⟨a, rfl, hcond.1, hcond.2, rfl, rfl⟩
    · rw [if_neg hcond] at h
      cases h

theorem mkGrantFromItem_isSome {it : RawListItem} {a : RawAnchor}
    (hsa : schemeAnchor it = some a) (ht : jsTrim a.text ≠ "")
    (hh : a.href ≠ "") : (mkGrantFromItem it).isSome = true := by
  simp only [mkGrantFromItem, hsa]
  rw [if_pos ⟨ht, hh⟩]
  rfl

theorem normalizeLink_ne_empty {href : String} (h : href ≠ "") :
    normalizeLink href ≠ "" := by
  unfold normalizeLink
  split
  · exact h
  · intro hc
    have hdata := congrArg String.data hc
    rw [String.data_append] at hdata
    have := List.append_eq_nil.mp hdata
    exact absurd this.1 (by decide)

theorem isPrefixOf_append {a : List Char} (c : List Char) :
    ∀ b : List Char, a.isPrefixOf b = true → a.isPrefixOf (b ++ c) = true := by
  induction a with
  | nil => intro b _; simp [List.isPrefixOf]
  | cons x xs ih =>
    intro b h
    cases b with
    | nil => simp [List.isPrefixOf] at h
    | cons y ys =>
      simp only [List.isPrefixOf, Bool.and_eq_true] at h
      simp only [List.cons_append, List.isPrefixOf, Bool.and_eq_true]
      exact ⟨h.1, ih ys h.2⟩

/-- Claim-side formalisation of the spec phrase "absolute URL" (an
`http://` or `https://` scheme prefix), for comparison with what
`normalizeLink` actually produces. -/
def specIsAbsoluteUrl (s : String) : Bool :=
  jsStartsWith "http://" s || jsStartsWith "https://" s

theorem normalizeLink_not_http {href : String}
    (h : jsStartsWith "http" href = false) :
    normalizeLink href = IDOX_BASE ++ href ∧
      specIsAbsoluteUrl (normalizeLink href) = true := by
  have heq : normalizeLink href = IDOX_BASE ++ href := by
    unfold normalizeLink
    rw [h]
    rfl
  refine ⟨heq, ?_⟩
  rw [heq]
  have hbase : ("https://".data).isPrefixOf IDOX_BASE.data = true := by decide
  have : ("https://".data).isPrefixOf (IDOX_BASE.data ++ href.data) = true :=
    isPrefixOf_append href.data IDOX_BASE.data hbase
  simp only [specIsAbsoluteUrl, jsStartsWith, String.data_append]
  rw [this]
  simp

/-! ## Lemmas about the Pagination Walker -/

theorem extractFromF_pages_le (env : ScrapeEnv) :
    ∀ (fuel cp : Nat), (extractFromF env fuel cp).2 ≤ MAX_PAGES + 1 - cp := by
  intro fuel
  induction fuel with
  | zero => intro cp; simp [extractFromF]
  | succ fuel ih =>
    intro cp
    by_cases hcp : cp > MAX_PAGES
    · simp [extractFromF, hcp]
    · have hcp' : cp ≤ 60 := by simpa [MAX_PAGES] using hcp
      have hcp2 : ¬ 60 < cp := by omega
      by_cases hpg : extractGrantsFromPage (env.pages cp) = []
      · simp [extractFromF, MAX_PAGES, hcp2, hpg]
        omega
      · by_cases hnx : hasNextPage env cp = true
        · have hih := ih (cp + 1)
          simp only [MAX_PAGES] at hih
          simp [extractFromF, MAX_PAGES, hcp2, hpg, hnx]
          omega
        · simp [extractFromF, MAX_PAGES, hcp2, hpg, hnx]
          omega

/-- Concatenation of the records of `k` consecutive listing pages
starting at page `cp` (what a capped full run returns). -/
def pagesConcatFrom (env : ScrapeEnv) : Nat → Nat → List IdoxGrant
  | _, 0 => []
  | cp, k + 1 =>
    extractGrantsFromPage (env.pages cp) ++ pagesConcatFrom env (cp + 1) k

theorem extractFromF_full_run (env : ScrapeEnv)
    (hall : ∀ n, extractGrantsFromPage (env.pages n) ≠ [] ∧
      env.nextByTitle n = true ∧ env.nextByRole n = true ∧
      env.nextByEval n = true) :
    ∀ (k cp : Nat), cp + k = MAX_PAGES + 1 →
      extractFromF env (k + 1) cp = (pagesConcatFrom env cp k, k) := by
  intro k
  induction k with
  | zero =>
    intro cp hcp
    have : cp > MAX_PAGES := by omega
    simp [extractFromF, this, pagesConcatFrom]
  | succ k ih =>
    intro cp hcp
    have hle : ¬ cp > MAX_PAGES := by omega
    have hpg : ¬ extractGrantsFromPage (env.pages cp) = [] := (hall cp).1
    have hnx : hasNextPage env cp = true := by
      unfold hasNextPage
      rw [(hall cp).2.1]
      simp
    rw [extractFromF, if_neg hle, if_neg hpg, if_pos hnx,
      ih (cp + 1) (by omega)]
    rfl

theorem extractFromF_mem (env : ScrapeEnv) :
    ∀ (fuel cp : Nat) (g : IdoxGrant), g ∈ (extractFromF env fuel cp).1 →
      ∃ n, g ∈ extractGrantsFromPage (env.pages n) := by
  intro fuel
  induction fuel with
  | zero => intro cp g h; simp [extractFromF] at h
  | succ fuel ih =>
    intro cp g h
    by_cases hcp : cp > MAX_PAGES
    · simp [extractFromF, hcp] at h
    · rw [extractFromF, if_neg hcp] at h
      by_cases hpg : extractGrantsFromPage (env.pages cp) = []
      · simp [hpg] at h
      · rw [if_neg hpg] at h
        by_cases hnx : hasNextPage env cp
        · simp only [hnx, if_true, List.mem_append] at h
          rcases h with h | h
          · exact ⟨cp, h⟩
          · exact ih (cp + 1) g h
        · simp only [hnx, if_false] at h
          exact ⟨cp, h⟩

theorem extractGrantsFromPage_title_link {items : List RawListItem}
    {g : IdoxGrant} (h : g ∈ extractGrantsFromPage items) :
    g.title ≠ "" ∧ g.link ≠ "" := by
  obtain ⟨it, _, hmk⟩ := List.mem_filterMap.mp h
  obtain ⟨a, _, ht, hh, hgt, hgl⟩ := mkGrantFromItem_eq_some hmk
  exact ⟨hgt ▸ ht, hgl ▸ normalizeLink_ne_empty hh⟩

/-! ## Lemmas about the Orchestrator -/

/-- The records a successful run returns. -/
def scrapeFinalGrants (opts : ScrapeOptions) (env : ScrapeEnv) :
    List IdoxGrant :=
  if opts.enrich = true ∧ 0 < (extractGrantsSimple env).1.length then
    (enrichGrants env.details (extractGrantsSimple env).1).1
  else (extractGrantsSimple env).1

/-- The result of a successful run of either entry point. -/
def scrapeOkResult (opts : ScrapeOptions) (env : ScrapeEnv) :
    IdoxScrapeResult :=
  { grants := scrapeFinalGrants opts env
    totalFound := (scrapeFinalGrants opts env).length
    filtersUsed := ⟨STATUS_FILTERS, AREA_OF_WORK_FILTERS⟩
    timestamp := env.timestamp
    scrapeDurationMs := env.durationMs
    enriched := opts.enrich }

/-- Actions performed by a successful run. -/
def scrapeOkTrace (opts : ScrapeOptions) (env : ScrapeEnv) : List Action :=
  [Action.launchBrowser, Action.gotoPortal, Action.loginSubmit,
   Action.extractListing] ++
    (if opts.enrich = true ∧ 0 < (extractGrantsSimple env).1.length then
      [Action.enrichDetails] else [])

/-- Events emitted by a successful streaming run. -/
def scrapeOkEvents (opts : ScrapeOptions) (env : ScrapeEnv) : List PEvent :=
  [PEvent.phase "launching" "Launching browser..." none,
   PEvent.phase "login" "Logging into Idox portal..." none,
   PEvent.phase "searching" "Searching for grants..." none,
   PEvent.phase "extracting" "Extracting grants from search results..." none,
   PEvent.phase "extracted"
     ("Found " ++ toString (extractGrantsSimple env).1.length ++ " grants")
     (some (extractGrantsSimple env).1.length)] ++
    (if opts.enrich = true ∧ 0 < (extractGrantsSimple env).1.length then
      PEvent.phase "enriching_start"
        ("Starting enrichment of " ++ toString (extractGrantsSimple env).1.length
          ++ " grants...")
        (some (extractGrantsSimple env).1.length) ::
          (enrichGrants env.details (extractGrantsSimple env).1).2
    else [])

theorem scrapeIdoxGrants_ok {u p : String} {opts : ScrapeOptions}
    {env : ScrapeEnv} {r : IdoxScrapeResult} {tr : List Action}
    (h : scrapeIdoxGrants u p opts env = (Except.ok r, tr)) :
    r = scrapeOkResult opts env := by
  unfold scrapeIdoxGrants at h
  split at h
  · simp at h
  · split at h
    · simp at h
    · split at h
      · simp at h
      · split at h
        · simp at h
        · rw [Prod.mk.injEq] at h
          exact (Except.ok.inj h.1).symm

theorem scrapeIdoxGrantsWithProgress_ok {u p : String} {opts : ScrapeOptions}
    {env : ScrapeEnv} {r : IdoxScrapeResult} {tr : List Action}
    {ev : List PEvent}
    (h : scrapeIdoxGrantsWithProgress u p opts env = (Except.ok r, tr, ev)) :
    r = scrapeOkResult opts env ∧ tr = scrapeOkTrace opts env ∧
      ev = scrapeOkEvents opts env := by
  unfold scrapeIdoxGrantsWithProgress at h
  split at h
  · simp at h
  · split at h
    · simp at h
    · split at h
      · simp at h
      · split at h
        · simp at h
        · rw [Prod.mk.injEq, Prod.mk.injEq] at h
          exact ⟨(Except.ok.inj h.1).symm, h.2.1.symm, h.2.2.symm⟩

theorem dtStep_no_match {pr : String × String}
    (h : jsTrim pr.1 ≠ "Status" ∧ jsTrim pr.1 ≠ "Maximum value" ∧
      jsTrim pr.1 ≠ "Current deadline") (acc : String × String × String) :
    dtStep acc pr = acc := by
  unfold dtStep
  rw [if_neg h.1, if_neg h.2.1, if_neg h.2.2]

theorem dtFold_no_match {pairs : List (String × String)}
    (h : ∀ pr ∈ pairs, jsTrim pr.1 ≠ "Status" ∧ jsTrim pr.1 ≠ "Maximum value" ∧
      jsTrim pr.1 ≠ "Current deadline") : dtFold pairs = ("", "", "") := by
  have hg : ∀ acc, pairs.foldl dtStep acc = acc := by
    induction pairs with
    | nil => intro acc; rfl
    | cons pr rest ih =>
      intro acc
      rw [List.foldl_cons, dtStep_no_match (h pr (List.mem_cons_self pr rest))]
      exact ih (fun q hq => h q (List.mem_cons_of_mem pr hq)) acc
  exact hg ("", "", "")

theorem normalizeLink_http (href : String) :
    jsStartsWith "http" (normalizeLink href) = true := by
  unfold normalizeLink
  split
  · assumption
  · have hbase : ("http".data).isPrefixOf IDOX_BASE.data = true := by decide
    have := isPrefixOf_append href.data IDOX_BASE.data hbase
    simp only [jsStartsWith, String.data_append]
    exact this

theorem scrapeFinalGrants_title_link {opts : ScrapeOptions} {env : ScrapeEnv}
    {g : IdoxGrant} (h : g ∈ scrapeFinalGrants opts env) :
    g.title ≠ "" ∧ g.link ≠ "" := by
  unfold scrapeFinalGrants at h
  split at h
  · obtain ⟨i, g0, hg0, he⟩ :=
      enrichStep_mem env.details (extractGrantsSimple env).1.length _ 0 g h
    obtain ⟨n, hn⟩ := extractFromF_mem env _ 1 g0 hg0
    have hbase := extractGrantsFromPage_title_link hn
    rw [he, applyEnrich_title, applyEnrich_link]
    exact hbase
  · obtain ⟨n, hn⟩ := extractFromF_mem env _ 1 g h
    exact extractGrantsFromPage_title_link hn

deriving instance DecidableEq for Except

/-! ## Concrete fixtures used by counterexamples and witnesses -/

def anchorFix : RawAnchor := { text := " Grant One ", href := "/Scheme/View/101" }

def itemFix : RawListItem :=
  { anchors := [anchorFix]
    funderText := some "Funder A"
    defPairs := [("Status", "Open")] }

def grantFix : IdoxGrant :=
  { title := "Grant One", funder := "Funder A", maxAmount := "", deadline := ""
    status := "Open"
    link := "https://funding.idoxopen4community.co.uk/Scheme/View/101"
    areaOfWork := "", description := none, eligibility := none
    howToApply := none, contactInfo := none, additionalInfo := none }

def envOk : ScrapeEnv :=
  { portalLoads := true, loginFormAppears := true, stillOnLogin := false
    validationMsg := ""
    pages := fun n => if n = 1 then [itemFix] else []
    nextByTitle := fun _ => false
    nextByRole := fun _ => false
    nextByEval := fun _ => false
    details := fun _ => none
    timestamp := "T0", durationMs := 5 }

def resOk : IdoxScrapeResult :=
  { grants := [grantFix], totalFound := 1
    filtersUsed := ⟨STATUS_FILTERS, AREA_OF_WORK_FILTERS⟩
    timestamp := "T0", scrapeDurationMs := 5, enriched := false }

def trOk : List Action :=
  [Action.launchBrowser, Action.gotoPortal, Action.loginSubmit,
   Action.extractListing]

/-- A portal whose every page is non-empty and where every next-page
strategy always reports success: the pagination must hit the hard cap. -/
def envCap : ScrapeEnv :=
  { envOk with
    pages := fun _ => [itemFix]
    nextByTitle := fun _ => true
    nextByRole := fun _ => true
    nextByEval := fun _ => true }

/-- A portal whose listing is empty. -/
def envEmpty : ScrapeEnv := { envOk with pages := fun _ => [] }

def resEmpty : IdoxScrapeResult :=
  { grants := [], totalFound := 0
    filtersUsed := ⟨STATUS_FILTERS, AREA_OF_WORK_FILTERS⟩
    timestamp := "T0", scrapeDurationMs := 5, enriched := true }

def evEmpty : List PEvent :=
  [PEvent.phase "launching" "Launching browser..." none,
   PEvent.phase "login" "Logging into Idox portal..." none,
   PEvent.phase "searching" "Searching for grants..." none,
   PEvent.phase "extracting" "Extracting grants from search results..." none,
   PEvent.phase "extracted" "Found 0 grants" (some 0)]

/-- A detail page from which nothing was extracted. -/
def emptyDetail : DetailPage :=
  { description := "", eligibility := "", howToApply := "", contactInfo := ""
    areaOfWork := "", additionalInfo := "" }

def plainGrant : IdoxGrant :=
  { title := "G", funder := "", maxAmount := "", deadline := "", status := ""
    link := "https://funding.idoxopen4community.co.uk/Scheme/View/7"
    areaOfWork := "", description := none, eligibility := none
    howToApply := none, contactInfo := none, additionalInfo := none }

def richDetail : DetailPage :=
  { description := "  A <b>grant</b> for parks ", eligibility := "Anyone"
    howToApply := "Apply online", contactInfo := "info at example"
    areaOfWork := "Community, Play", additionalInfo := "Extra" }

/-- Enrichment oracle that fails on record 0 and succeeds elsewhere. -/
def detailsW : Nat → Option DetailPage :=
  fun i => if i = 0 then none else some richDetail

def gsW : List IdoxGrant := [plainGrant, grantFix]

def c9Anchor : RawAnchor := { text := "Grant X", href := "http/Scheme/View/9" }

def c9Item : RawListItem :=
  { anchors := [c9Anchor], funderText := none, defPairs := [] }

def c9Grant : IdoxGrant :=
  { title := "Grant X", funder := "", maxAmount := "", deadline := ""
    status := "", link := "http/Scheme/View/9", areaOfWork := ""
    description := none, eligibility := none, howToApply := none
    contactInfo := none, additionalInfo := none }

def itemNoFields : RawListItem :=
  { anchors := [anchorFix], funderText := none, defPairs := [] }

/-! ## Claims -/

/-- C1 — counterexample.  The claim "`sanitize(sanitize(x)) == sanitize(x)`
for all x" is false: the entity decodes run sequentially, so
`&amp;` → `&` re-creates entities.  `sanitizeText "&amp;amp;" = "&amp;"`,
but a second application gives `"&"`. -/
theorem sanitizeText_not_idempotent :
    sanitizeText "&amp;amp;" = "&amp;" ∧
      sanitizeText (sanitizeText "&amp;amp;") = "&" ∧
      sanitizeText (sanitizeText "&amp;amp;") ≠ sanitizeText "&amp;amp;" := by
  decide

/-- C1 (amended): `sanitizeText` is idempotent on every input that contains
no `'&'` character (the counterexample requires an `'&'`: only the entity
decodes can re-create removable markup, since tag stripping leaves no
`'<'` that is still followed by a `'>'`, and whitespace collapsing and
trimming are idempotent). -/
theorem sanitizeText_idem_no_amp (s : String)
    (h : hasChar '&' s.data = false) :
    sanitizeText (sanitizeText s) = sanitizeText s := by
  by_cases hs : s = ""
  · subst hs; rfl
  · have h1 : sanitizeText s = (sanitizePipe s.data).asString := by
      simp only [sanitizeText, if_neg hs]
    rw [h1]
    by_cases h2 : (sanitizePipe s.data).asString = ""
    · simp only [sanitizeText, if_pos h2]
      exact h2.symm
    · simp only [sanitizeText, if_neg h2]
      rw [asString_data, sanitizePipe_fixed s.data h]

/-- C1 — witness for the amended theorem at a concrete `'&'`-free input. -/
theorem sanitizeText_idem_no_amp_witness :
    hasChar '&' (" <p>Hello</p>\n\nWorld  ").data = false ∧
      sanitizeText (sanitizeText " <p>Hello</p>\n\nWorld  ") =
        sanitizeText " <p>Hello</p>\n\nWorld  " :=
  ⟨by decide, sanitizeText_idem_no_amp " <p>Hello</p>\n\nWorld  " (by decide)⟩

/-- C2: `enrichGrants` returns a list of the same length; position `i` of
the output is exactly position `i` of the input with its own enrichment
outcome applied (merged detail on success, untouched original on failure),
so a failure at `i` neither drops nor duplicates the record and leaves
every other position unaffected; the function is total (never fails as a
whole). -/
theorem enrichGrants_pointwise (details : Nat → Option DetailPage)
    (gs : List IdoxGrant) :
    (enrichGrants details gs).1.length = gs.length ∧
    (∀ i, (enrichGrants details gs).1.get? i =
      (gs.get? i).map (fun g => applyEnrich details i g)) ∧
    (∀ i, details i = none →
      (enrichGrants details gs).1.get? i = gs.get? i) := by
  refine ⟨enrichStep_length details gs.length gs 0, fun i => ?_, fun i hni => ?_⟩
  · simpa using enrichStep_get? details gs.length gs 0 i
  · have h := enrichStep_get? details gs.length gs 0 i
    simp only [Nat.zero_add] at h
    rw [(by exact h : (enrichGrants details gs).1.get? i = _)]
    cases gs.get? i with
    | none => rfl
    | some g => simp [applyEnrich, hni]

/-- C2 — witness: a failing record 0 is returned unchanged. -/
theorem enrichGrants_pointwise_witness :
    detailsW 0 = none ∧ (enrichGrants detailsW gsW).1.get? 0 = gsW.get? 0 :=
  ⟨rfl, (enrichGrants_pointwise detailsW gsW).2.2 0 rfl⟩

/-- C3: the pagination walker never processes more than `MAX_PAGES = 60`
listing pages; when every page is non-empty and every next-page strategy
keeps reporting a next page, it stops at exactly 60 pages and still
returns (not errors) the records of all 60 pages in order. -/
theorem pagination_hard_cap (env : ScrapeEnv) :
    (extractGrantsSimple env).2 ≤ MAX_PAGES ∧
      ((∀ n, extractGrantsFromPage (env.pages n) ≠ [] ∧
          env.nextByTitle n = true ∧ env.nextByRole n = true ∧
          env.nextByEval n = true) →
        (extractGrantsSimple env).2 = MAX_PAGES ∧
          (extractGrantsSimple env).1 = pagesConcatFrom env 1 MAX_PAGES) := by
  constructor
  · have h := extractFromF_pages_le env (MAX_PAGES + 1) 1
    simpa using h
  · intro hall
    have h := extractFromF_full_run env hall MAX_PAGES 1 (by omega)
    unfold extractGrantsSimple
    rw [h]
    exact ⟨rfl, rfl⟩

/-- C3 — witness: with every strategy always reporting a next page and
every page non-empty, exactly 60 pages are walked and returned. -/
theorem pagination_hard_cap_witness :
    (∀ n, extractGrantsFromPage (envCap.pages n) ≠ [] ∧
        envCap.nextByTitle n = true ∧ envCap.nextByRole n = true ∧
        envCap.nextByEval n = true) ∧
      (extractGrantsSimple envCap).2 = MAX_PAGES ∧
        (extractGrantsSimple envCap).1 = pagesConcatFrom envCap 1 MAX_PAGES :=
  ⟨fun n => ⟨by show extractGrantsFromPage [itemFix] ≠ []; decide, rfl, rfl, rfl⟩,
   (pagination_hard_cap envCap).2
     (fun n => ⟨by show extractGrantsFromPage [itemFix] ≠ []; decide, rfl, rfl, rfl⟩)⟩

/-- C4: with either credential empty, both entry points return the
`ConfigurationError` with an empty action trace (no browser launched, no
navigation) and, for the streaming variant, no events emitted. -/
theorem missing_credentials_config_error (u p : String)
    (opts : ScrapeOptions) (env : ScrapeEnv) (h : u = "" ∨ p = "") :
    scrapeIdoxGrants u p opts env =
      (Except.error (ScrapeError.configurationError CONFIG_ERROR_MSG), []) ∧
    scrapeIdoxGrantsWithProgress u p opts env =
      (Except.error (ScrapeError.configurationError CONFIG_ERROR_MSG), [], []) := by
  constructor
  · unfold scrapeIdoxGrants
    rw [if_pos h]
  · unfold scrapeIdoxGrantsWithProgress
    rw [if_pos h]

/-- C4 — witness at an empty username. -/
theorem missing_credentials_config_error_witness :
    ("" = "" ∨ "pw" = "") ∧
      scrapeIdoxGrants "" "pw" ⟨false⟩ envOk =
        (Except.error (ScrapeError.configurationError CONFIG_ERROR_MSG), []) ∧
      scrapeIdoxGrantsWithProgress "" "pw" ⟨false⟩ envOk =
        (Except.error (ScrapeError.configurationError CONFIG_ERROR_MSG), [], []) :=
  ⟨Or.inl rfl,
   missing_credentials_config_error "" "pw" ⟨false⟩ envOk (Or.inl rfl)⟩

/-- C5: every successful run of either entry point returns a result whose
`totalFound` equals the length of its `grants` sequence. -/
theorem totalFound_matches_records :
    (∀ (u p : String) (opts : ScrapeOptions) (env : ScrapeEnv) r tr,
      scrapeIdoxGrants u p opts env = (Except.ok r, tr) →
        r.totalFound = r.grants.length) ∧
    (∀ (u p : String) (opts : ScrapeOptions) (env : ScrapeEnv) r tr ev,
      scrapeIdoxGrantsWithProgress u p opts env = (Except.ok r, tr, ev) →
        r.totalFound = r.grants.length) := by
  constructor
  · intro u p opts env r tr h
    rw [scrapeIdoxGrants_ok h]
    rfl
  · intro u p opts env r tr ev h
    rw [(scrapeIdoxGrantsWithProgress_ok h).1]
    rfl

/-- C5 — witness on a concrete successful run. -/
theorem totalFound_matches_records_witness :
    scrapeIdoxGrants "u" "pw" ⟨false⟩ envOk = (Except.ok resOk, trOk) ∧
      resOk.totalFound = resOk.grants.length :=
  ⟨by decide,
   totalFound_matches_records.1 "u" "pw" ⟨false⟩ envOk resOk trOk (by decide)⟩

/-- C6: no record in the output of a successful scrape (either entry
point) has an empty title or an empty link; and an item with a valid
scheme anchor (non-empty trimmed title, non-empty href) always yields a
record, no matter what its other fields contain — a missing other field
never drops the record. -/
theorem empty_title_or_link_never_output :
    (∀ (u p : String) (opts : ScrapeOptions) (env : ScrapeEnv) r tr,
      scrapeIdoxGrants u p opts env = (Except.ok r, tr) →
        ∀ g ∈ r.grants, g.title ≠ "" ∧ g.link ≠ "") ∧
    (∀ (u p : String) (opts : ScrapeOptions) (env : ScrapeEnv) r tr ev,
      scrapeIdoxGrantsWithProgress u p opts env = (Except.ok r, tr, ev) →
        ∀ g ∈ r.grants, g.title ≠ "" ∧ g.link ≠ "") ∧
    (∀ (it : RawListItem) (a : RawAnchor), schemeAnchor it = some a →
      jsTrim a.text ≠ "" → a.href ≠ "" → (mkGrantFromItem it).isSome = true) := by
  refine ⟨?_, ?_, ?_⟩
  · intro u p opts env r tr h g hg
    rw [scrapeIdoxGrants_ok h] at hg
    exact scrapeFinalGrants_title_link hg
  · intro u p opts env r tr ev h g hg
    rw [(scrapeIdoxGrantsWithProgress_ok h).1] at hg
    exact scrapeFinalGrants_title_link hg
  · intro it a hsa ht hh
    exact mkGrantFromItem_isSome hsa ht hh

/-- C6 — witness on a concrete run and a concrete valid item. -/
theorem empty_title_or_link_never_output_witness :
    scrapeIdoxGrants "u" "pw" ⟨false⟩ envOk = (Except.ok resOk, trOk) ∧
      grantFix ∈ resOk.grants ∧
      (grantFix.title ≠ "" ∧ grantFix.link ≠ "") ∧
      (mkGrantFromItem itemFix).isSome = true :=
  ⟨by decide, by decide,
   empty_title_or_link_never_output.1 "u" "pw" ⟨false⟩ envOk resOk trOk
     (by decide) grantFix (by decide),
   empty_title_or_link_never_output.2.2 itemFix anchorFix (by decide)
     (by decide) (by decide)⟩

/-- C7 — counterexample.  The claim says an optional long-form field for
which nothing was extracted "is the empty string"; the code sets it to
`undefined` (`sanitizeText(...) || undefined`), i.e. `none`, which is not
the empty string.  Record 0 is enriched (the oracle succeeds) with an
empty detail page, and its `description` ends up `none`, not `some ""`. -/
theorem optional_field_not_empty_string :
    (enrichGrants (fun _ => some emptyDetail) [plainGrant]).1 = [plainGrant] ∧
      plainGrant.description = none ∧ plainGrant.description ≠ some "" := by
  decide

/-- C7 (amended): the non-title/link listing fields (funder, maxAmount,
deadline, status, areaOfWork) default to the empty string when not found;
after enrichment an optional long-form field for which nothing was
extracted is absent (`undefined` = `none`), not the empty string, and
`areaOfWork` falls back to its previous value. -/
theorem missing_field_defaults :
    (∀ (it : RawListItem) (a : RawAnchor), schemeAnchor it = some a →
      jsTrim a.text ≠ "" → a.href ≠ "" → it.funderText = none →
      (∀ pr ∈ it.defPairs, jsTrim pr.1 ≠ "Status" ∧
        jsTrim pr.1 ≠ "Maximum value" ∧ jsTrim pr.1 ≠ "Current deadline") →
      ∃ g, mkGrantFromItem it = some g ∧ g.funder = "" ∧ g.maxAmount = "" ∧
        g.deadline = "" ∧ g.status = "" ∧ g.areaOfWork = "") ∧
    (∀ (g : IdoxGrant) (d : DetailPage),
      (sanitizeText d.description = "" → (mergeDetails g d).description = none) ∧
      (sanitizeText d.eligibility = "" → (mergeDetails g d).eligibility = none) ∧
      (sanitizeText d.howToApply = "" → (mergeDetails g d).howToApply = none) ∧
      (sanitizeText d.contactInfo = "" → (mergeDetails g d).contactInfo = none) ∧
      (sanitizeText d.additionalInfo = "" →
        (mergeDetails g d).additionalInfo = none) ∧
      (sanitizeText d.areaOfWork = "" →
        (mergeDetails g d).areaOfWork = g.areaOfWork)) := by
  constructor
  · intro it a hsa ht hh hf hd
    simp only [mkGrantFromItem, hsa]
    rw [if_pos ⟨ht, hh⟩, dtFold_no_match hd, hf]
    exact ⟨_, rfl, rfl, rfl, rfl, rfl, rfl⟩
  · intro g d
    refine ⟨fun h => ?_, fun h => ?_, fun h => ?_, fun h => ?_, fun h => ?_,
      fun h => ?_⟩
    all_goals simp [mergeDetails, emptyToNone, h]

/-- C7 — witness: a concrete item with no funder and no matching `dt`
pairs still yields a record with empty-string fields, and an all-empty
detail page leaves `description` absent. -/
theorem missing_field_defaults_witness :
    (schemeAnchor itemNoFields = some anchorFix ∧
      jsTrim anchorFix.text ≠ "" ∧ anchorFix.href ≠ "" ∧
      itemNoFields.funderText = none) ∧
    (∃ g, mkGrantFromItem itemNoFields = some g ∧ g.funder = "" ∧
      g.maxAmount = "" ∧ g.deadline = "" ∧ g.status = "" ∧ g.areaOfWork = "") ∧
    (sanitizeText emptyDetail.description = "" ∧
      (mergeDetails plainGrant emptyDetail).description = none) :=
  ⟨⟨by decide, by decide, by decide, rfl⟩,
   missing_field_defaults.1 itemNoFields anchorFix (by decide) (by decide)
     (by decide) rfl (by simp [itemNoFields]),
   ⟨by decide, (missing_field_defaults.2 plainGrant emptyDetail).1 (by decide)⟩⟩

/-- C8: during enrichment the `current` fields of the progress events are
exactly `1, 2, …, n` (strictly increasing), and the `grant` events are
exactly the successfully enriched records, one each, in processing
order. -/
theorem enrichment_event_order (details : Nat → Option DetailPage)
    (gs : List IdoxGrant) :
    progressCurrents (enrichGrants details gs).2 = countUp 1 gs.length ∧
    List.Chain' (· < ·) (progressCurrents (enrichGrants details gs).2) ∧
    grantEvents (enrichGrants details gs).2 = successEnriched details 0 gs := by
  have h1 : progressCurrents (enrichGrants details gs).2 = countUp 1 gs.length := by
    simpa using enrichStep_progressCurrents details gs.length gs 0
  refine ⟨h1, ?_, ?_⟩
  · rw [h1]
    exact countUp_chain gs.length 1
  · simpa using enrichStep_grantEvents details gs.length gs 0

/-- C9 — counterexample.  The claim says every output link is an absolute
URL; the code only tests `startsWith('http')`, so a relative href that
happens to begin with `"http"` is kept verbatim and is not an absolute
URL. -/
theorem link_not_absolute :
    extractGrantsFromPage [c9Item] = [c9Grant] ∧
      specIsAbsoluteUrl c9Grant.link = false := by
  decide

/-- C9 (amended): every output link starts with `"http"`: an href already
starting with `"http"` is kept verbatim (normalized or not), and any
other href is prefixed with the portal base URL, which does yield an
absolute `https` URL. -/
theorem link_normalization :
    (∀ (items : List RawListItem) (g : IdoxGrant),
      g ∈ extractGrantsFromPage items → jsStartsWith "http" g.link = true) ∧
    (∀ (it : RawListItem) (a : RawAnchor) (g : IdoxGrant),
      schemeAnchor it = some a → mkGrantFromItem it = some g →
      (jsStartsWith "http" a.href = true → g.link = a.href) ∧
      (jsStartsWith "http" a.href = false → g.link = IDOX_BASE ++ a.href ∧
        specIsAbsoluteUrl g.link = true)) := by
  constructor
  · intro items g hg
    obtain ⟨it, _, hmk⟩ := List.mem_filterMap.mp hg
    obtain ⟨a, _, _, _, _, hgl⟩ := mkGrantFromItem_eq_some hmk
    rw [hgl]
    exact normalizeLink_http a.href
  · intro it a g hsa hmk
    obtain ⟨a2, hsa2, _, _, _, hgl⟩ := mkGrantFromItem_eq_some hmk
    rw [hsa] at hsa2
    obtain rfl := (Option.some.inj hsa2).symm
    constructor
    · intro hhttp
      rw [hgl]
      unfold normalizeLink
      rw [if_pos hhttp]
    · intro hn
      rw [hgl]
      exact normalizeLink_not_http hn

/-- C9 — witness: a relative scheme href gets the base prefix and becomes
an absolute https URL. -/
theorem link_normalization_witness :
    grantFix ∈ extractGrantsFromPage [itemFix] ∧
      jsStartsWith "http" grantFix.link = true ∧
      jsStartsWith "http" anchorFix.href = false ∧
      (grantFix.link = IDOX_BASE ++ anchorFix.href ∧
        specIsAbsoluteUrl grantFix.link = true) :=
  ⟨by decide,
   link_normalization.1 [itemFix] grantFix (by decide),
   by decide,
   (link_normalization.2 itemFix anchorFix grantFix (by decide) (by decide)).2
     (by decide)⟩

/-- C10: every successful result reports `enriched` equal to the `enrich`
option, and with `enrich = true` and an empty extraction the enrichment
is skipped entirely (no enrichment action, no progress or grant events)
while the result still reports `enriched = true`. -/
theorem enriched_flag_matches_option :
    (∀ (u p : String) (opts : ScrapeOptions) (env : ScrapeEnv) r tr,
      scrapeIdoxGrants u p opts env = (Except.ok r, tr) →
        r.enriched = opts.enrich) ∧
    (∀ (u p : String) (opts : ScrapeOptions) (env : ScrapeEnv) r tr ev,
      scrapeIdoxGrantsWithProgress u p opts env = (Except.ok r, tr, ev) →
        r.enriched = opts.enrich) ∧
    (∀ (u p : String) (env : ScrapeEnv) r tr ev,
      (extractGrantsSimple env).1 = [] →
      scrapeIdoxGrantsWithProgress u p ⟨true⟩ env = (Except.ok r, tr, ev) →
      r.enriched = true ∧ r.grants = [] ∧ Action.enrichDetails ∉ tr ∧
        progressCurrents ev = [] ∧ grantEvents ev = []) := by
  refine ⟨?_, ?_, ?_⟩
  · intro u p opts env r tr h
    rw [scrapeIdoxGrants_ok h]
    rfl
  · intro u p opts env r tr ev h
    rw [(scrapeIdoxGrantsWithProgress_ok h).1]
    rfl
  · intro u p env r tr ev hempty h
    obtain ⟨hr, htr, hev⟩ := scrapeIdoxGrantsWithProgress_ok h
    refine ⟨by rw [hr]; rfl, ?_, ?_, ?_, ?_⟩
    · rw [hr]
      show scrapeFinalGrants ⟨true⟩ env = []
      simp [scrapeFinalGrants, hempty]
    · rw [htr]
      simp [scrapeOkTrace, hempty]
    · rw [hev]
      simp [scrapeOkEvents, hempty, progressCurrents, List.filterMap_cons]
    · rw [hev]
      simp [scrapeOkEvents, hempty, grantEvents, List.filterMap_cons]

/-- C10 — witness: enrich requested but the listing is empty; the result
still says `enriched = true` with no enrichment activity. -/
theorem enriched_flag_matches_option_witness :
    (extractGrantsSimple envEmpty).1 = [] ∧
      scrapeIdoxGrantsWithProgress "u" "pw" ⟨true⟩ envEmpty =
        (Except.ok resEmpty, trOk, evEmpty) ∧
      (resEmpty.enriched = true ∧ resEmpty.grants = [] ∧
        Action.enrichDetails ∉ trOk ∧ progressCurrents evEmpty = [] ∧
        grantEvents evEmpty = []) :=
  ⟨by decide, by decide,
   enriched_flag_matches_option.2.2 "u" "pw" envEmpty resEmpty trOk evEmpty
     (by decide) (by decide)⟩

end IdoxScraper
